import Mathlib

/-!
Shallow embedding of the news-digest pipeline
(agents/finance_agent.py, agents/sports_agent.py, agents/tech_agent.py,
utils/dedup.py, utils/json_utils.py).

External collaborators (the language model, the NewsAPI client, feedparser,
dateutil's date parser, json.loads) are modelled as explicit function
parameters; a Python exception is modelled as `Except.error ()` on the
functions that can raise, and as the caught-and-defaulted value where the
source catches it.
-/

/-- Outcome of one `llm.invoke(...)` call: the call either raises
(`failure`) or returns a response whose `.content` is a string. -/
inductive LLMCall where
  | failure : LLMCall
  | success : String → LLMCall
  deriving DecidableEq

/-- The canonical article shape produced by `normalize_article` (identical in
finance_agent.py and sports_agent.py); tech_agent's records use the same
fields. `url`/`published` are `Option String` because the Python dicts hold
`None` for a missing value. -/
structure Article where
  title : String := ""
  summary : String := ""
  url : Option String := none
  published : Option String := none
  source : String := ""
  deriving DecidableEq

/-- A raw record as it comes back from NewsAPI or from a feedparser entry,
before `normalize_article`: every field access in the source is a
`dict.get`, so every field is optional. -/
structure RawArticle where
  title : Option String := none
  summary : Option String := none
  description : Option String := none
  url : Option String := none
  link : Option String := none
  publishedAt : Option String := none
  published : Option String := none
  deriving DecidableEq

/-- Python's `x or y` on optional strings: `None` and `""` are falsy, so the
result is `x` when `x` is a non-empty string and `y` otherwise. -/
def pyOr (x y : Option String) : Option String :=
  match x with
  | some s => if s = "" then y else some s
  | none => y

/-- Python's `str.strip()`: drop leading and trailing whitespace
(modelled on the character list of the string). -/
def pyStrip (cs : List Char) : List Char :=
  ((cs.dropWhile Char.isWhitespace).reverse.dropWhile Char.isWhitespace).reverse

/-- `str.strip()` packaged on `String`. -/
def pyStripStr (s : String) : String :=
  String.mk (pyStrip s.data)

/-- `normalize_article` (finance_agent.py:117-124, sports_agent.py:133-140):
`title` is `a.get("title", "").strip()`, `summary` is
`a.get("summary") or a.get("description", "")`, `url` is
`a.get("url") or a.get("link")`, `published` is
`a.get("publishedAt") or a.get("published")`. -/
def normalize_article (a : RawArticle) (source : String) : Article :=
  { title := pyStripStr (a.title.getD "")
    summary := (pyOr a.summary (some (a.description.getD ""))).getD ""
    url := pyOr a.url a.link
    published := pyOr a.publishedAt a.published
    source := source }

/-!
## utils/json_utils.py

`extract_json_block` strips the text, removes markdown fences with
`re.sub(r"^```(?:json)?|```$", "", text, flags=re.MULTILINE)`, strips again,
then searches `(\{.*\}|\[.*\])` with `re.DOTALL`.  The regexes are embedded
directly: greedy `.*` means a match runs from the first opening bracket that
has a matching closing bracket somewhere after it, through the *last* such
closing bracket in the string.
-/

/-- `upToLast c cs` is the prefix of `cs` up to and including the *last*
occurrence of `c`, or `none` when `c` does not occur — exactly the span a
greedy `.*c` consumes. -/
def upToLast (c : Char) : List Char → Option (List Char)
  | [] => none
  | x :: xs =>
    match upToLast c xs with
    | some r => some (x :: r)
    | none => if x = c then some [x] else none

/-- `re.search(r"(\{.*\}|\[.*\])", text, re.DOTALL)`: scan left to right; at
each position try `\{.*\}` first, then `\[.*\]`; `.*` is greedy and spans
newlines. -/
def jsonSearch : List Char → Option (List Char)
  | [] => none
  | x :: xs =>
    if x = '{' then
      match upToLast '}' xs with
      | some r => some (x :: r)
      | none => jsonSearch xs
    else if x = '[' then
      match upToLast ']' xs with
      | some r => some (x :: r)
      | none => jsonSearch xs
    else jsonSearch xs

/-- `re.search(r"\[.*\]", text, re.DOTALL)` as used by the query generators:
first `[` that has a `]` after it, greedily through the last `]`. -/
def arraySearch : List Char → Option (List Char)
  | [] => none
  | x :: xs =>
    if x = '[' then
      match upToLast ']' xs with
      | some r => some (x :: r)
      | none => arraySearch xs
    else arraySearch xs

/-- `re.sub(r"^```(?:json)?|```$", "", text, flags=re.MULTILINE)`: delete a
backtick fence at a line start (optionally followed by `json`, greedy) or a
fence right before a newline / at the end of the string; scanning resumes
after each deleted match, one character at a time otherwise.  The `Bool`
argument tracks whether the current position is at a line start. -/
def btick : Char := Char.ofNat 96

/-- One scan with explicit fuel; the scanner consumes at least one character
of the remaining text per unit of fuel, so with fuel `≥ length + 1` the
`0`-fuel clause is unreachable and the function implements the full scan. -/
def stripFencesGo : Nat → Bool → List Char → List Char
  | 0, _, cs => cs
  | _ + 1, _, [] => []
  | fuel + 1, lineStart, c1 :: t1 =>
    if c1 = btick ∧ t1.take 2 = [btick, btick] then
      -- a literal "```" starts at the current position
      let rest := t1.drop 2
      if lineStart then
        -- first alternative `^```(?:json)?`, with greedy optional `json`
        if rest.take 4 = ['j', 's', 'o', 'n'] then
          stripFencesGo fuel false (rest.drop 4)
        else stripFencesGo fuel false rest
      else if rest = [] then []
      -- second alternative ` ```$ ` (before a newline or at text end)
      else if rest.head? = some '\n' then stripFencesGo fuel false rest
      else c1 :: stripFencesGo fuel false t1
    else c1 :: stripFencesGo fuel (c1 = '\n') t1

def stripFences (cs : List Char) : List Char :=
  stripFencesGo (cs.length + 1) true cs

/-- `extract_json_block` (json_utils.py:6-24): `None` for falsy input,
otherwise strip, remove fences, strip again, and return the first JSON
object/array match, if any. -/
def extract_json_block (text : String) : Option String :=
  if text = "" then none
  else
    match jsonSearch (pyStrip (stripFences (pyStrip text.data))) with
    | none => none
    | some block => some (String.mk block)

/-- `safe_json_loads` (json_utils.py:27-39).  `json.loads` is external; it is
modelled by a parameter `jsonLoads` returning `none` where Python raises
`json.JSONDecodeError` (the only exception `json.loads` raises on a `str`,
and the one the source catches).  A falsy (`None` or empty) extracted block
short-circuits to `None`. -/
def safe_json_loads {α : Type} (jsonLoads : String → Option α)
    (text : String) : Option α :=
  match extract_json_block text with
  | none => none
  | some block => if block = "" then none else jsonLoads block

example : extract_json_block "noise [1, 2] tail" = some "[1, 2]" := rfl
example : extract_json_block "" = none := rfl
example : extract_json_block "no json here" = none := rfl
example : extract_json_block "pre \x7b\"a\": [1]\x7d post"
    = some "\x7b\"a\": [1]\x7d" := rfl
example : extract_json_block "```json\n[1, 2]\n```" = some "[1, 2]" := rfl

/-!
## Module constants

finance_agent.py: `SECTOR = "Technology"`, `STOCK = "Infosys"`,
`MAX_NEWSAPI = 10`, `MAX_RSS = 10`, `FINAL_ARTICLES = 5`;
sports_agent.py: `TEAM = "Australia"`, `SPORT = "Cricket"`, same bounds;
tech_agent.py: `TECH = "Artificial Intelligence"`, same bounds.
-/

def STOCK : String := "Infosys"
def TEAM : String := "Australia"
def SPORT : String := "Cricket"
def TECH : String := "Artificial Intelligence"
def MAX_NEWSAPI : Nat := 10
def MAX_RSS : Nat := 10
def FINAL_ARTICLES : Nat := 5

def CRICKET_RSS : List String :=
  ["https://www.espncricinfo.com/rss/content/story/feeds/0.xml"]

def FOOTBALL_RSS : List String :=
  ["https://www.espn.com/espn/rss/soccer/news",
   "https://www.goal.com/feeds/news"]

/-- `get_rss_feeds` (sports_agent.py:59-64). -/
def get_rss_feeds : List String :=
  if SPORT.toLower = "cricket" then CRICKET_RSS
  else if SPORT.toLower = "football" then FOOTBALL_RSS
  else []

/-!
## Query generation

The three query generators share a shape — `llm.invoke` on the query prompt,
`re.search(r"\[.*\]", content, re.DOTALL)`, `json.loads` on the match — but
differ in what they catch.  `json.loads` is external and is modelled by a
parameter `jsonLoads : String → Option (List String)` (`none` where Python
raises `json.JSONDecodeError`; a successfully parsed top-level `[...]` block
is a JSON array — element types are not validated by any of the agents, so
the element type is fixed to `String` without loss for these claims).
`Except.error ()` models an uncaught Python exception. -/

def re_array_search (s : String) : Option String :=
  (arraySearch s.data).map String.mk

/-- `generate_queries` (sports_agent.py:146-160): the `llm.invoke` call is
*outside* any `try`, so a failing call propagates; `json.loads` is inside
`try ... except Exception: pass`, and a parsed falsy (empty) array falls
through to the fallback `[f"{TEAM} {SPORT} news"]`. -/
def sports_generate_queries (jsonLoads : String → Option (List String))
    (call : LLMCall) : Except Unit (List String) :=
  match call with
  | .failure => .error ()
  | .success content =>
    match re_array_search content with
    | some block =>
      match jsonLoads block with
      | some queries =>
        if queries ≠ [] then .ok queries
        else .ok [TEAM ++ " " ++ SPORT ++ " news"]
      | none => .ok [TEAM ++ " " ++ SPORT ++ " news"]
    | none => .ok [TEAM ++ " " ++ SPORT ++ " news"]

/-- `generate_queries` (tech_agent.py:103-115): the whole body, including
`llm.invoke`, sits in `try ... except Exception`, so every failure path
degrades to the fallback `[f"{TECH} news"]`; a parsed non-list or empty list
also falls through to the fallback. -/
def tech_generate_queries (jsonLoads : String → Option (List String))
    (call : LLMCall) : Except Unit (List String) :=
  match call with
  | .failure => .ok [TECH ++ " news"]
  | .success content =>
    match re_array_search content with
    | some block =>
      match jsonLoads block with
      | some queries =>
        if queries ≠ [] then .ok queries
        else .ok [TECH ++ " news"]
      | none => .ok [TECH ++ " news"]
    | none => .ok [TECH ++ " news"]

/-- Inline query generation in `run_finance_agent` (finance_agent.py:229-235):
`llm.invoke` is unguarded (a failing call propagates), and
`json.loads(match.group())` is unguarded too (an unparseable bracketed block
propagates `json.JSONDecodeError`); only the no-match case falls back, to
`[f"{STOCK} stock news"]`.  A successfully parsed array is returned without
any emptiness or type check. -/
def finance_generate_queries (jsonLoads : String → Option (List String))
    (call : LLMCall) : Except Unit (List String) :=
  match call with
  | .failure => .error ()
  | .success content =>
    match re_array_search content with
    | some block =>
      match jsonLoads block with
      | some queries => .ok queries
      | none => .error ()
    | none => .ok [STOCK ++ " stock news"]

/-!
## Relevance classification

`res.content.strip().upper().startswith("YES")`; case-normalization is
modelled on ASCII (`Char.toUpper`).
-/

/-- Whether a model response counts as a positive classification. -/
def classify_response_positive (content : String) : Bool :=
  ((pyStrip content.data).map Char.toUpper).take 3 = ['Y', 'E', 'S']

/-- `classify_article` (sports_agent.py:212-219): no `try`/`except` — a
failing `llm.invoke` call propagates out of the classifier. -/
def sports_classify_article (call : LLMCall) : Except Unit Bool :=
  match call with
  | .failure => .error ()
  | .success content => .ok (classify_response_positive content)

/-- `classify_article` (tech_agent.py:160-170): the body sits in
`try ... except Exception`, returning `False` on any failure. -/
def tech_classify_article (call : LLMCall) : Except Unit Bool :=
  match call with
  | .failure => .ok false
  | .success content => .ok (classify_response_positive content)

example : classify_response_positive "  yes, it is" = true := rfl
example : classify_response_positive "No" = false := rfl
example : classify_response_positive "" = false := rfl
example : classify_response_positive " YESSIR" = true := rfl

/-!
## Deduplication

`deduplicate_articles` (utils/dedup.py:4-24, with its default key `"url"`)
and `deduplicate` (tech_agent.py:150-158) have the identical logic: walk the
list keeping a `seen` set, skip a record whose url is falsy (`None` or `""`)
or already seen, keep the *first* record for each url.
-/

def dedupGo (seen : List String) : List Article → List Article
  | [] => []
  | a :: rest =>
    match a.url with
    | none => dedupGo seen rest
    | some u =>
      if u = "" then dedupGo seen rest
      else if u ∈ seen then dedupGo seen rest
      else a :: dedupGo (u :: seen) rest

/-- `deduplicate_articles` (utils/dedup.py:4-24) at its default `key="url"`. -/
def deduplicate_articles (articles : List Article) : List Article :=
  dedupGo [] articles

/-- `deduplicate` (tech_agent.py:150-158); same body as
`deduplicate_articles` (`if url and url not in seen`). -/
def tech_deduplicate (articles : List Article) : List Article :=
  dedupGo [] articles

/-!
## The finance/sports merge dict

`run_finance_agent` (finance_agent.py:240-246) and `run_sports_agent`
(sports_agent.py:250-256):

    combined = {}
    for a in newsapi_articles + rss_articles:
        if a["url"]:
            combined[a["url"]] = a
    articles = list(combined.values())

A Python dict keeps the insertion position of the *first* occurrence of a
key while a later assignment overwrites the stored value in place.  The dict
is modelled as an association list with exactly those semantics.
-/

def dictUpsert (m : List (String × Article)) (u : String) (a : Article) :
    List (String × Article) :=
  if m.any (fun p => p.1 = u) then
    m.map (fun p => if p.1 = u then (u, a) else p)
  else m ++ [(u, a)]

def combineDictGo (m : List (String × Article)) :
    List Article → List (String × Article)
  | [] => m
  | a :: rest =>
    combineDictGo
      (match a.url with
       | some u => if u = "" then m else dictUpsert m u a
       | none => m)
      rest

/-- The merge dict built from a record list (truthiness guard `if a["url"]`
included: records with `None` or `""` url are skipped). -/
def combineDict (articles : List Article) : List (String × Article) :=
  combineDictGo [] articles

def dictValues (m : List (String × Article)) : List Article :=
  m.map Prod.snd

def dictLookup (m : List (String × Article)) (u : String) : Option Article :=
  (m.find? (fun p => p.1 = u)).map Prod.snd

/-!
## Date parsing and recency ranking

`parse_date_safe` (finance_agent.py:110-114, sports_agent.py:126-130) wraps
`dateutil.parser.parse` and substitutes `datetime.min` on any exception
(including the `TypeError` raised on a `None` argument).  Timestamps are
modelled as `Int`; `dateutil` is external and is modelled by a parameter
`parse : String → Option Int` (`none` = the parse raised), whose values are
`≥ datetimeMin` for the positive theorems, since every Python `datetime`
compares `≥ datetime.min`.  Note `datetime.min` itself is in `dateutil`'s
range: `dateutil.parser.parse("0001-01-01T00:00:00") == datetime.min`.

`articles.sort(key=..., reverse=True)` (finance_agent.py:248-252,
sports_agent.py:259-262) is Python's stable sort, descending by key while
records with equal keys keep their input order; it is modelled by a stable
descending insertion sort.
-/

def datetimeMin : Int := 0

def parse_date_safe (parse : String → Option Int) :
    Option String → Int
  | none => datetimeMin
  | some s => (parse s).getD datetimeMin

/-- Insert `a` before the first element whose key is `≤ key a`; everything
passed over has a strictly larger key, so an element inserted later in input
order lands after its equals (stability). -/
def insertDesc (key : Article → Int) (a : Article) :
    List Article → List Article
  | [] => [a]
  | b :: bs =>
    if key b ≤ key a then a :: b :: bs
    else b :: insertDesc key a bs

/-- Stable descending sort by an `Int` key: the model of
`list.sort(key=..., reverse=True)`. -/
def sortDesc (key : Article → Int) : List Article → List Article
  | [] => []
  | a :: as => insertDesc key a (sortDesc key as)

/-- The ranking stage: stable descending sort on
`parse_date_safe(x.get("published"))`. -/
def rank_articles (parse : String → Option Int) (articles : List Article) :
    List Article :=
  sortDesc (fun a => parse_date_safe parse a.published) articles

/-!
## Parallel classification collection

sports_agent.py:264-270 / tech_agent.py:202-208:

    futures = {exe.submit(classify_article, a): a for a in articles}
    for f in as_completed(futures):
        if f.result():
            relevant.append(futures[f])

One future per list position; `as_completed` yields futures in *completion
order*, an arbitrary permutation of the submission (rank) order, modelled as
an explicit index list `completion`.  `f.result()` re-raises an exception
thrown inside `classify_article`, so the collector is also given with an
error channel. -/

/-- The collection loop for total verdicts. -/
def collectRelevant (articles : List Article) (verdict : Article → Bool) :
    List Nat → List Article
  | [] => []
  | i :: rest =>
    match articles[i]? with
    | some a =>
      if verdict a then a :: collectRelevant articles verdict rest
      else collectRelevant articles verdict rest
    | none => collectRelevant articles verdict rest

/-- The collection loop when a classification call may raise
(`f.result()` re-raises): the first failing verdict in completion order
aborts the run. -/
def collectRelevantE (articles : List Article)
    (classify : Article → Except Unit Bool) :
    List Nat → Except Unit (List Article)
  | [] => .ok []
  | i :: rest =>
    match articles[i]? with
    | some a =>
      match classify a with
      | .error e => .error e
      | .ok b => do
        let r ← collectRelevantE articles classify rest
        pure (if b then a :: r else r)
    | none => collectRelevantE articles classify rest

/-!
## Fetch stages

The transports are external: `newsapiRaw q` is the (already per-request
`page_size`-bounded) record list NewsAPI returned for query `q`, with `[]`
for a query whose call raised (the loop catches per-query errors and
continues); `feedEntries f` is `feedparser.parse(f).entries`.
-/

/-- The accumulation loop of `fetch_newsapi_articles`
(finance_agent.py:161-179, sports_agent.py:166-184): normalize and append
every record of every query. -/
def newsapiLoop (newsapiRaw : String → List RawArticle) :
    List String → List Article
  | [] => []
  | q :: qs =>
    (newsapiRaw q).map (fun a => normalize_article a "newsapi")
      ++ newsapiLoop newsapiRaw qs

/-- `fetch_newsapi_articles`: the loop above followed by the single global
truncation `articles[:MAX_NEWSAPI]`. -/
def fetch_newsapi_articles (newsapiRaw : String → List RawArticle)
    (queries : List String) : List Article :=
  (newsapiLoop newsapiRaw queries).take MAX_NEWSAPI

/-- Re-wrapping of a feedparser entry before normalization
(sports_agent.py:198-203, finance_agent.py:191-196): only `title`,
`summary`, `link`, `published` are carried over. -/
def rssEntryToRaw (e : RawArticle) : RawArticle :=
  { title := e.title, summary := e.summary, link := e.link,
    published := e.published }

/-- The per-feed loop of `fetch_rss_articles` (sports_agent.py:190-206):
each feed's entries are truncated to `MAX_RSS` *before* concatenation. -/
def fetch_rss_articles (feedEntries : String → List RawArticle) :
    List String → List Article
  | [] => []
  | f :: fs =>
    ((feedEntries f).take MAX_RSS).map
        (fun e => normalize_article (rssEntryToRaw e) "rss")
      ++ fetch_rss_articles feedEntries fs

/-- `fetch_rss_articles` (finance_agent.py:185-199): the single hardcoded
feed, entries truncated to `MAX_RSS`. -/
def finance_fetch_rss (rssRaw : List RawArticle) : List Article :=
  (rssRaw.take MAX_RSS).map (fun e => normalize_article (rssEntryToRaw e) "rss")

/-!
## End-to-end pipeline runs

Each run is a function of the behaviour of its external collaborators for
this cycle, gathered in an environment record.  The result is
`Except Unit (Option Digest × Bool)`: `.error ()` models an uncaught Python
exception, the `Option` distinguishes the empty-dict terminal `{}` (`none`)
from a populated digest, and the `Bool` records whether the summarizer was
invoked on this run (`summarize_articles`/`summarize` appears in exactly one
branch of the source). -/

structure FinanceDigest where
  title : String
  stock_info : String
  summary : String
  articles : List Article
  deriving DecidableEq

structure SportsDigest where
  title : String
  summary : String
  articles : List Article
  deriving DecidableEq

structure FinanceEnv where
  /-- outcome of `llm.invoke(QUERY_PROMPT...)` -/
  queryCall : LLMCall
  /-- `json.loads` on the bracketed block -/
  jsonLoads : String → Option (List String)
  /-- per-query NewsAPI responses (`[]` for a caught per-query error) -/
  newsapiRaw : String → List RawArticle
  /-- `feedparser.parse(FINANCE_RSS_FEED).entries` -/
  rssRaw : List RawArticle
  /-- `dateutil.parser.parse` -/
  dateParse : String → Option Int
  /-- result of `get_stock_price()` (itself fail-soft, always a string) -/
  stockInfo : String
  /-- result of `summarize_articles(final)` (fail-soft: it catches its own
  errors and returns "Summary unavailable") -/
  summarizer : List Article → String

structure SportsEnv where
  queryCall : LLMCall
  jsonLoads : String → Option (List String)
  newsapiRaw : String → List RawArticle
  /-- entries of each RSS feed url -/
  feedEntries : String → List RawArticle
  dateParse : String → Option Int
  /-- per-article outcome of `classify_article` (may raise) -/
  classify : Article → Except Unit Bool
  /-- `as_completed` completion order over the ranked list's indices -/
  completion : List Nat
  /-- result of `summarize_articles(final)` (sports' summarizer has no
  `try`, but a raising summarizer is outside these claims; total here) -/
  summarizer : List Article → String

/-- The merged, deduplicated, recency-ranked candidate list of a
finance/sports run (finance_agent.py:240-252, sports_agent.py:250-262). -/
def mergedRanked (dateParse : String → Option Int)
    (newsapiArticles rssArticles : List Article) : List Article :=
  rank_articles dateParse
    (dictValues (combineDict (newsapiArticles ++ rssArticles)))

/-- The finance final selection `articles[:FINAL_ARTICLES]` given the
generated queries. -/
def financeSelect (env : FinanceEnv) (queries : List String) : List Article :=
  (mergedRanked env.dateParse
      (fetch_newsapi_articles env.newsapiRaw queries)
      (finance_fetch_rss env.rssRaw)).take FINAL_ARTICLES

/-- `run_finance_agent` (finance_agent.py:226-265): an exception from the
inline query generation propagates; otherwise fetch, merge+dedupe, rank,
truncate; `{}` without touching the summarizer when the truncation is
empty, else the populated digest. -/
def run_finance_agent (env : FinanceEnv) :
    Except Unit (Option FinanceDigest × Bool) :=
  match finance_generate_queries env.jsonLoads env.queryCall with
  | .error e => .error e
  | .ok queries =>
    if financeSelect env queries = [] then .ok (none, false)
    else .ok (some
      { title := "💰 Finance News"
        stock_info := env.stockInfo
        summary := env.summarizer (financeSelect env queries)
        articles := financeSelect env queries }, true)

/-- The sports ranked candidate list given the generated queries. -/
def sportsRanked (env : SportsEnv) (queries : List String) : List Article :=
  mergedRanked env.dateParse
    (fetch_newsapi_articles env.newsapiRaw queries)
    (fetch_rss_articles env.feedEntries get_rss_feeds)

/-- `run_sports_agent` (sports_agent.py:242-283): an exception from
`generate_queries` or from any `classify_article` future propagates;
otherwise the positives (in completion order) are truncated, with the `{}`
terminal when empty. -/
def run_sports_agent (env : SportsEnv) :
    Except Unit (Option SportsDigest × Bool) :=
  match sports_generate_queries env.jsonLoads env.queryCall with
  | .error e => .error e
  | .ok queries =>
    match collectRelevantE (sportsRanked env queries) env.classify
        env.completion with
    | .error e => .error e
    | .ok relevant =>
      if relevant.take FINAL_ARTICLES = [] then .ok (none, false)
      else .ok (some
        { title := "🏏 Sports News"
          summary := env.summarizer (relevant.take FINAL_ARTICLES)
          articles := relevant.take FINAL_ARTICLES }, true)

/-!
## Helper lemmas: deduplication
-/

theorem dedupGo_sublist (seen : List String) (l : List Article) :
    (dedupGo seen l).Sublist l := by
  induction l generalizing seen with
  | nil => exact List.Sublist.refl _
  | cons a rest ih =>
    rw [dedupGo]
    split
    · exact (ih seen).cons a
    · split_ifs
      · exact (ih seen).cons a
      · exact (ih seen).cons a
      · exact (ih _).cons₂ a

theorem mem_dedupGo {seen : List String} {l : List Article} {a : Article}
    (h : a ∈ dedupGo seen l) : ∃ u, a.url = some u ∧ u ≠ "" ∧ u ∉ seen := by
  induction l generalizing seen with
  | nil => simp [dedupGo] at h
  | cons b rest ih =>
    rw [dedupGo] at h
    split at h
    · exact ih h
    · rename_i u hb
      split_ifs at h with h1 h2
      · exact ih h
      · exact ih h
      · rcases List.mem_cons.1 h with rfl | h3
        · exact ⟨u, hb, h1, h2⟩
        · obtain ⟨u2, hu2, hne2, hnotin2⟩ := ih h3
          exact ⟨u2, hu2, hne2, fun hmem => hnotin2 (List.mem_cons_of_mem _ hmem)⟩

theorem dedupGo_urls_nodup (seen : List String) (l : List Article) :
    ((dedupGo seen l).filterMap Article.url).Nodup := by
  induction l generalizing seen with
  | nil => simp [dedupGo]
  | cons b rest ih =>
    rw [dedupGo]
    split
    · exact ih seen
    · rename_i u hb
      split_ifs with h1 h2
      · exact ih seen
      · exact ih seen
      · rw [List.filterMap_cons_some hb]
        refine List.Nodup.cons ?_ (ih (u :: seen))
        intro hmem
        obtain ⟨a2, ha2, hurl2⟩ := List.mem_filterMap.1 hmem
        obtain ⟨u2, hu2, _, hnotin2⟩ := mem_dedupGo ha2
        rw [hu2] at hurl2
        cases Option.some.inj hurl2
        exact hnotin2 (List.mem_cons_self _ _)

theorem dedupGo_find? (l : List Article) (seen : List String) (u : String)
    (hu : u ≠ "") (hs : u ∉ seen) :
    (dedupGo seen l).find? (fun a => a.url == some u)
      = l.find? (fun a => a.url == some u) := by
  induction l generalizing seen with
  | nil => rfl
  | cons b rest ih =>
    rw [dedupGo]
    split
    · rename_i hb
      rw [ih seen hs]
      exact (List.find?_cons_of_neg _ (by simp [hb])).symm
    · rename_i ub hb
      split_ifs with h1 h2
      · rw [ih seen hs]
        refine (List.find?_cons_of_neg _ ?_).symm
        simp only [hb, h1, beq_iff_eq, Option.some.injEq]
        exact fun hx => hu hx.symm
      · have hne : ub ≠ u := fun hx => hs (hx ▸ h2)
        rw [ih seen hs]
        exact (List.find?_cons_of_neg _ (by simp [hb, hne])).symm
      · by_cases h3 : ub = u
        · subst h3
          exact (List.find?_cons_of_pos _ (by simp [hb])).trans
            (List.find?_cons_of_pos _ (by simp [hb])).symm
        · have hstep := ih (ub :: seen)
            (by simp only [List.mem_cons, not_or]; exact ⟨Ne.symm h3, hs⟩)
          refine (List.find?_cons_of_neg _ ?_).trans
            (hstep.trans (List.find?_cons_of_neg _ ?_).symm)
          · simp [hb, h3]
          · simp [hb, h3]

theorem deduplicate_articles_first_wins (l : List Article) (u : String)
    (hu : u ≠ "") :
    (deduplicate_articles l).find? (fun a => a.url == some u)
      = l.find? (fun a => a.url == some u) :=
  dedupGo_find? l [] u hu (by simp)

/-!
## Helper lemmas: the merge dict
-/

theorem dictLookup_upsert_self (m : List (String × Article)) (u : String)
    (a : Article) : dictLookup (dictUpsert m u a) u = some a := by
  unfold dictUpsert
  by_cases h : m.any (fun p => p.1 = u)
  · rw [if_pos h]
    unfold dictLookup
    rw [List.find?_map]
    have hfun : ((fun p : String × Article => decide (p.1 = u)) ∘
        (fun p : String × Article => if p.1 = u then (u, a) else p))
        = (fun p : String × Article => decide (p.1 = u)) := by
      funext p
      by_cases hp : p.1 = u <;> simp [hp]
    rw [hfun]
    obtain ⟨q, hq, hqu⟩ := List.any_eq_true.1 h
    have hsome : (m.find? (fun p : String × Article => decide (p.1 = u))).isSome := by
      rw [List.find?_isSome]
      exact ⟨q, hq, hqu⟩
    obtain ⟨r, hr⟩ := Option.isSome_iff_exists.1 hsome
    have hru : r.1 = u := by simpa using List.find?_some hr
    rw [hr]
    simp [hru]
  · rw [if_neg h]
    unfold dictLookup
    rw [List.find?_append]
    have hnone : m.find? (fun p : String × Article => decide (p.1 = u)) = none := by
      rw [List.find?_eq_none]
      intro p hp hpu
      exact h (List.any_eq_true.2 ⟨p, hp, hpu⟩)
    rw [hnone]
    simp

theorem dictLookup_upsert_other (m : List (String × Article)) (u uq : String)
    (a : Article) (hne : uq ≠ u) :
    dictLookup (dictUpsert m u a) uq = dictLookup m uq := by
  unfold dictUpsert
  by_cases h : m.any (fun p => p.1 = u)
  · rw [if_pos h]
    unfold dictLookup
    rw [List.find?_map]
    have hfun : ((fun p : String × Article => decide (p.1 = uq)) ∘
        (fun p : String × Article => if p.1 = u then (u, a) else p))
        = (fun p : String × Article => decide (p.1 = uq)) := by
      funext p
      by_cases hp : p.1 = u
      · simp [hp]
      · simp [hp]
    rw [hfun]
    cases hf : m.find? (fun p : String × Article => decide (p.1 = uq)) with
    | none => rfl
    | some r =>
      have hru : r.1 = uq := by simpa using List.find?_some hf
      have : ¬(r.1 = u) := hru ▸ hne
      simp [this]
  · rw [if_neg h]
    unfold dictLookup
    rw [List.find?_append]
    have : ([(u, a)].find? (fun p : String × Article => decide (p.1 = uq))) = none := by
      rw [List.find?_eq_none]
      intro p hp
      rcases List.mem_singleton.1 hp with rfl
      simp only [decide_eq_true_eq]
      exact Ne.symm hne
    rw [this, Option.or_none]

theorem mem_dictUpsert {P : String × Article → Prop}
    {m : List (String × Article)} {u : String} {a : Article}
    (hm : ∀ p ∈ m, P p) (ha : P (u, a)) :
    ∀ p ∈ dictUpsert m u a, P p := by
  intro p hp
  unfold dictUpsert at hp
  split_ifs at hp
  · obtain ⟨q, hq, hfq⟩ := List.mem_map.1 hp
    by_cases h : q.1 = u
    · rw [if_pos h] at hfq
      exact hfq ▸ ha
    · rw [if_neg h] at hfq
      exact hfq ▸ hm q hq
  · rcases List.mem_append.1 hp with hin | hin
    · exact hm p hin
    · rcases List.mem_singleton.1 hin with rfl
      exact ha

theorem mem_combineDictGo (l : List Article) :
    ∀ m : List (String × Article),
      (∀ p ∈ m, p.2.url = some p.1 ∧ p.1 ≠ "") →
      ∀ p ∈ combineDictGo m l, p.2.url = some p.1 ∧ p.1 ≠ "" := by
  induction l with
  | nil => intro m hm p hp; exact hm p hp
  | cons a rest ih =>
    intro m hm p hp
    rw [combineDictGo] at hp
    refine ih _ ?_ p hp
    cases ha : a.url with
    | none => simpa [ha] using hm
    | some u =>
      by_cases h1 : u = ""
      · simpa [ha, h1] using hm
      · simp only [ha, if_neg h1]
        exact mem_dictUpsert hm ⟨ha, h1⟩

theorem mem_combineDict {l : List Article} {p : String × Article}
    (hp : p ∈ combineDict l) : p.2.url = some p.1 ∧ p.1 ≠ "" :=
  mem_combineDictGo l [] (by simp) p hp

/-- The merge dict implements last-write-wins: looking up a (truthy) url in
the final dict state yields the *last* record of the input with that url. -/
theorem combineDictGo_lookup (l : List Article) :
    ∀ (m : List (String × Article)) (u : String), u ≠ "" →
      dictLookup (combineDictGo m l) u
        = (l.reverse.find? (fun a => a.url == some u)).or (dictLookup m u) := by
  induction l with
  | nil => intro m u _; simp [combineDictGo]
  | cons a rest ih =>
    intro m u hu
    rw [combineDictGo]
    rw [ih _ u hu]
    rw [List.reverse_cons, List.find?_append, Option.or_assoc]
    cases hf : rest.reverse.find? (fun a => a.url == some u) with
    | some b => rfl
    | none =>
      simp only [Option.none_or]
      split
      · rename_i u0 ha
        by_cases h1 : u0 = ""
        · rw [if_pos h1]
          have : ("" : String) ≠ u := Ne.symm hu
          simp [List.find?_singleton, ha, h1, this]
        · rw [if_neg h1]
          by_cases h2 : u0 = u
          · subst h2
            rw [dictLookup_upsert_self]
            simp [List.find?_singleton, ha]
          · rw [dictLookup_upsert_other m u0 u a (Ne.symm h2)]
            simp [List.find?_singleton, ha, h2]
      · rename_i ha
        simp [List.find?_singleton, ha]

theorem combineDict_lookup (l : List Article) (u : String) (hu : u ≠ "") :
    dictLookup (combineDict l) u
      = l.reverse.find? (fun a => a.url == some u) := by
  rw [combineDict, combineDictGo_lookup l [] u hu]
  simp [dictLookup]

/-!
## Helper lemmas: stable descending sort
-/

theorem insertDesc_perm (key : Article → Int) (a : Article) (l : List Article) :
    (insertDesc key a l).Perm (a :: l) := by
  induction l with
  | nil => exact List.Perm.refl _
  | cons b bs ih =>
    rw [insertDesc]
    split_ifs
    · exact List.Perm.refl _
    · exact (ih.cons b).trans (List.Perm.swap a b bs)

theorem sortDesc_perm (key : Article → Int) (l : List Article) :
    (sortDesc key l).Perm l := by
  induction l with
  | nil => exact List.Perm.refl _
  | cons a as ih =>
    rw [sortDesc]
    exact (insertDesc_perm key a (sortDesc key as)).trans (ih.cons a)

theorem mem_insertDesc {key : Article → Int} {a b : Article} {l : List Article} :
    b ∈ insertDesc key a l ↔ b = a ∨ b ∈ l := by
  rw [(insertDesc_perm key a l).mem_iff, List.mem_cons]

theorem insertDesc_pairwise {key : Article → Int} {a : Article}
    {l : List Article} (h : l.Pairwise (fun x y => key y ≤ key x)) :
    (insertDesc key a l).Pairwise (fun x y => key y ≤ key x) := by
  induction l with
  | nil => simp [insertDesc]
  | cons b bs ih =>
    obtain ⟨hb, hbs⟩ := List.pairwise_cons.1 h
    rw [insertDesc]
    split_ifs with hba
    · refine List.Pairwise.cons ?_ h
      intro c hc
      rcases List.mem_cons.1 hc with rfl | hc2
      · exact hba
      · exact (hb c hc2).trans hba
    · refine List.Pairwise.cons ?_ (ih hbs)
      intro c hc
      rcases mem_insertDesc.1 hc with rfl | hc2
      · exact le_of_lt (lt_of_not_le hba)
      · exact hb c hc2

theorem sortDesc_pairwise (key : Article → Int) (l : List Article) :
    (sortDesc key l).Pairwise (fun x y => key y ≤ key x) := by
  induction l with
  | nil => simp [sortDesc]
  | cons a as ih =>
    rw [sortDesc]
    exact insertDesc_pairwise ih

theorem filter_insertDesc (key : Article → Int) (k : Int) (a : Article)
    (l : List Article) :
    (insertDesc key a l).filter (fun x => key x == k)
      = if key a = k then a :: l.filter (fun x => key x == k)
        else l.filter (fun x => key x == k) := by
  induction l with
  | nil =>
    rw [insertDesc, List.filter_cons]
    by_cases hk : key a = k
    · simp [hk]
    · simp [hk]
  | cons b bs ih =>
    rw [insertDesc]
    by_cases hba : key b ≤ key a
    · rw [if_pos hba]
      by_cases hk : key a = k
      · simp [List.filter_cons, hk]
      · simp [List.filter_cons, hk]
    · rw [if_neg hba, List.filter_cons, ih]
      by_cases hk : key a = k
      · have hbk : key b ≠ k := fun hx => hba (le_of_eq (hx.trans hk.symm))
        simp [List.filter_cons, hk, hbk]
      · by_cases hbk : key b = k
        · simp [List.filter_cons, hk, hbk]
        · simp [List.filter_cons, hk, hbk]

/-- Stability of the ranking sort: for every key value, the records holding
that key appear in the output in exactly their input order. -/
theorem sortDesc_filter_key (key : Article → Int) (k : Int) (l : List Article) :
    (sortDesc key l).filter (fun x => key x == k)
      = l.filter (fun x => key x == k) := by
  induction l with
  | nil => rfl
  | cons a as ih =>
    rw [sortDesc, filter_insertDesc, List.filter_cons, ih]
    by_cases hk : key a = k
    · simp [hk]
    · simp [hk]

/-!
## Helper lemmas: classification collection
-/

theorem collectRelevant_eq (articles : List Article) (verdict : Article → Bool)
    (c : List Nat) :
    collectRelevant articles verdict c
      = (c.filterMap (fun i => articles[i]?)).filter verdict := by
  induction c with
  | nil => rfl
  | cons i rest ih =>
    rw [collectRelevant, List.filterMap_cons]
    cases h : articles[i]? with
    | none => simpa [h] using ih
    | some a =>
      rw [List.filter_cons]
      by_cases hv : verdict a
      · simp [h, hv, ih]
      · simp [h, hv, ih]

theorem filterMap_getElem_range {α : Type} (l : List α) :
    (List.range l.length).filterMap (fun i => l[i]?) = l := by
  induction l with
  | nil => rfl
  | cons a as ih =>
    rw [List.length_cons, List.range_succ_eq_map, List.filterMap_cons]
    simp only [List.getElem?_cons_zero]
    rw [List.filterMap_map]
    have hfun : ((fun i : Nat => (a :: as)[i]?) ∘ Nat.succ)
        = fun i : Nat => as[i]? := by
      funext i
      simp
    rw [hfun, ih]

theorem collectRelevant_range (articles : List Article)
    (verdict : Article → Bool) :
    collectRelevant articles verdict (List.range articles.length)
      = articles.filter verdict := by
  rw [collectRelevant_eq, filterMap_getElem_range]

theorem collectRelevant_perm (articles : List Article)
    (verdict : Article → Bool) (c : List Nat)
    (h : c.Perm (List.range articles.length)) :
    (collectRelevant articles verdict c).Perm (articles.filter verdict) := by
  rw [collectRelevant_eq]
  have h2 := (h.filterMap (fun i => articles[i]?)).filter verdict
  rwa [filterMap_getElem_range] at h2

theorem collectRelevantE_ok (articles : List Article) (v : Article → Bool)
    (c : List Nat) :
    collectRelevantE articles (fun a => .ok (v a)) c
      = .ok (collectRelevant articles v c) := by
  induction c with
  | nil => rfl
  | cons i rest ih =>
    rw [collectRelevantE, collectRelevant]
    cases h : articles[i]? with
    | none => simpa [h] using ih
    | some a =>
      simp only [h, ih]
      by_cases hv : v a
      · simp [hv, Except.bind]
      · simp [hv, Except.bind]

/-!
## Helper lemmas: fetch stages
-/

theorem newsapiLoop_eq (raw : String → List RawArticle) (qs : List String) :
    newsapiLoop raw qs
      = (qs.map (fun q => (raw q).map (fun a => normalize_article a "newsapi"))).flatten := by
  induction qs with
  | nil => rfl
  | cons q rest ih => rw [newsapiLoop, List.map_cons, List.flatten_cons, ih]

theorem fetch_rss_articles_eq (entries : String → List RawArticle)
    (fs : List String) :
    fetch_rss_articles entries fs
      = (fs.map (fun f => ((entries f).take MAX_RSS).map
            (fun e => normalize_article (rssEntryToRaw e) "rss"))).flatten := by
  induction fs with
  | nil => rfl
  | cons f rest ih => rw [fetch_rss_articles, List.map_cons, List.flatten_cons, ih]

/-!
## Helper lemmas: JSON extraction
-/

theorem jsonSearch_ne_nil {cs bs : List Char} (h : jsonSearch cs = some bs) :
    bs ≠ [] := by
  induction cs with
  | nil => simp [jsonSearch] at h
  | cons x xs ih =>
    rw [jsonSearch] at h
    split_ifs at h
    · cases hm : upToLast '}' xs with
      | none => rw [hm] at h; exact ih h
      | some r =>
        rw [hm] at h
        cases Option.some.inj h
        simp
    · cases hm : upToLast ']' xs with
      | none => rw [hm] at h; exact ih h
      | some r =>
        rw [hm] at h
        cases Option.some.inj h
        simp
    · exact ih h

theorem extract_json_block_ne_empty {text block : String}
    (h : extract_json_block text = some block) : block ≠ "" := by
  unfold extract_json_block at h
  by_cases ht : text = ""
  · rw [if_pos ht] at h
    exact absurd h (by simp)
  · rw [if_neg ht] at h
    split at h
    · exact absurd h (by simp)
    · rename_i bs hs
      cases Option.some.inj h
      intro he
      exact jsonSearch_ne_nil hs (congrArg String.data he)

theorem safe_json_loads_spec {α : Type} (j : String → Option α)
    (text : String) (v : α) :
    safe_json_loads j text = some v
      ↔ ∃ block, extract_json_block text = some block ∧ j block = some v := by
  unfold safe_json_loads
  cases h : extract_json_block text with
  | none => simp
  | some block =>
    have hne := extract_json_block_ne_empty h
    simp [hne]

/-!
## Claims
-/

/-- C1, counterexample: the classification collector appends positives in
*completion* order, so with ranked input `[x, y]`, both classified positive,
and the second future completing first, the output is `[y, x]`, not the rank
order `[x, y]` — refuting "outputs exactly the positively-classified records
in their pre-classification relative (rank) order, regardless of the order
in which the concurrent classification calls complete". -/
theorem claim_C1_counterexample :
    collectRelevant
        [{ title := "x", url := some "u1" }, { title := "y", url := some "u2" }]
        (fun _ => true) [1, 0]
      = [{ title := "y", url := some "u2" }, { title := "x", url := some "u1" }]
    ∧ ([({ title := "y", url := some "u2" } : Article),
        { title := "x", url := some "u1" }]
        ≠ [{ title := "x", url := some "u1" }, { title := "y", url := some "u2" }])
    ∧ ([1, 0] : List Nat).Perm (List.range 2) :=
  ⟨rfl, by decide, by decide⟩

/-- C1 (amended): the relevance-filtering stage outputs the
positively-classified records in the order the classification futures
complete; that is a permutation of the positives, and equals the
pre-classification rank order exactly when the futures complete in
submission order. -/
theorem claim_C1_classification_order (articles : List Article)
    (verdict : Article → Bool) (completion : List Nat)
    (h : completion.Perm (List.range articles.length)) :
    collectRelevant articles verdict (List.range articles.length)
      = articles.filter verdict
    ∧ (collectRelevant articles verdict completion).Perm
        (articles.filter verdict) :=
  ⟨collectRelevant_range articles verdict,
   collectRelevant_perm articles verdict completion h⟩

/-- C1 witness: the amended theorem applied to a concrete two-element list
with the reversed completion order. -/
theorem claim_C1_witness :
    (collectRelevant
        [{ title := "x", url := some "u1" }, { title := "y", url := some "u2" }]
        (fun _ => true) [1, 0]).Perm
      ([({ title := "x", url := some "u1" } : Article),
        { title := "y", url := some "u2" }].filter (fun _ => true)) :=
  (claim_C1_classification_order
      [{ title := "x", url := some "u1" }, { title := "y", url := some "u2" }]
      (fun _ => true) [1, 0] (by decide)).2

/-- C2, counterexample: merging a search-API record and an RSS record with
the same url through the finance/sports merge dict keeps the *RSS* record
(a Python dict assignment is last-write-wins and RSS results come second),
refuting "the search-API record's metadata survives deduplication". -/
theorem claim_C2_counterexample :
    dictValues (combineDict
        [{ title := "api", url := some "u", source := "newsapi" },
         { title := "rss", url := some "u", source := "rss" }])
      = [{ title := "rss", url := some "u", source := "rss" }]
    ∧ ({ title := "rss", url := some "u", source := "rss" } : Article).source
        ≠ "newsapi" :=
  ⟨rfl, by decide⟩

/-- C2 (amended): in the DomainPipeline merge step, for every pair of a
search-API record and an RSS record sharing the same (truthy) url, an *RSS*
record's metadata survives deduplication, because the merge dict is
last-write-wins and RSS results are placed after search-API results. -/
theorem claim_C2_merge_collision (napi rss : List Article) (a b : Article)
    (u : String) (ha : a ∈ napi) (hau : a.url = some u) (hb : b ∈ rss)
    (hbu : b.url = some u) (hu : u ≠ "") :
    ∃ c ∈ rss, c.url = some u
      ∧ dictLookup (combineDict (napi ++ rss)) u = some c := by
  rw [combineDict_lookup _ u hu, List.reverse_append, List.find?_append]
  have hsome : (rss.reverse.find? (fun x => x.url == some u)).isSome := by
    rw [List.find?_isSome]
    exact ⟨b, by simpa using hb, by simp [hbu]⟩
  obtain ⟨c, hc⟩ := Option.isSome_iff_exists.1 hsome
  have hcmem : c ∈ rss := by
    have hmem := List.mem_of_find?_eq_some hc
    simpa using hmem
  have hcu : c.url = some u := by simpa using List.find?_some hc
  rw [hc]
  exact ⟨c, hcmem, hcu, rfl⟩

/-- C2 witness: the amended theorem applied to concrete one-record lists. -/
theorem claim_C2_witness :
    ∃ c ∈ [({ title := "rss", url := some "u", source := "rss" } : Article)],
      c.url = some "u"
      ∧ dictLookup (combineDict
          ([{ title := "api", url := some "u", source := "newsapi" }]
            ++ [{ title := "rss", url := some "u", source := "rss" }])) "u"
        = some c :=
  claim_C2_merge_collision
    [{ title := "api", url := some "u", source := "newsapi" }]
    [{ title := "rss", url := some "u", source := "rss" }]
    { title := "api", url := some "u", source := "newsapi" }
    { title := "rss", url := some "u", source := "rss" }
    "u" (by decide) rfl (by decide) rfl (by decide)

/-- C3, counterexample: `deduplicate_articles` keeps the *first* record of a
colliding url, refuting "the survivor is the one occurring later in input
order (last-write-wins)". -/
theorem claim_C3_counterexample :
    deduplicate_articles
        [{ title := "first", url := some "u1" },
         { title := "second", url := some "u1" }]
      = [{ title := "first", url := some "u1" }]
    ∧ ({ title := "first", url := some "u1" } : Article)
        ≠ { title := "second", url := some "u1" } :=
  ⟨rfl, by decide⟩

/-- C3 (amended): deduplication (`deduplicate_articles`, and tech's
`deduplicate`, which has the identical body) outputs at most one record per
distinct non-absent url, never outputs a record whose url is falsy, keeps
records in input order, and when several records share a url the survivor
is the one occurring *earlier* in input order (first-write-wins); only the
inline finance/sports merge dict (see C2) is last-write-wins. -/
theorem claim_C3_dedup (l : List Article) (u : String) (hu : u ≠ "") :
    ((deduplicate_articles l).filterMap Article.url).Nodup
    ∧ (∀ a ∈ deduplicate_articles l, ∃ v, a.url = some v ∧ v ≠ "")
    ∧ (deduplicate_articles l).find? (fun a => a.url == some u)
        = l.find? (fun a => a.url == some u)
    ∧ (deduplicate_articles l).Sublist l
    ∧ tech_deduplicate l = deduplicate_articles l :=
  ⟨dedupGo_urls_nodup [] l,
   fun a ha =>
     (mem_dedupGo ha).elim (fun v hv => ⟨v, hv.1, hv.2.1⟩),
   deduplicate_articles_first_wins l u hu,
   dedupGo_sublist [] l,
   rfl⟩

/-- C3 witness: the amended theorem applied to a concrete colliding list. -/
theorem claim_C3_witness :
    (deduplicate_articles
        [{ title := "first", url := some "u1" },
         { title := "second", url := some "u1" }]).find?
        (fun a => a.url == some "u1")
      = [({ title := "first", url := some "u1" } : Article),
         { title := "second", url := some "u1" }].find?
        (fun a => a.url == some "u1") :=
  (claim_C3_dedup
      [{ title := "first", url := some "u1" },
       { title := "second", url := some "u1" }]
      "u1" (by decide)).2.2.1

/-- C4, counterexample: query generation *can* raise.  Sports'
`generate_queries` does not guard the `llm.invoke` call, so a failing call
propagates; finance's inline query generation does not guard `json.loads`,
so a bracketed but unparseable block propagates `json.JSONDecodeError` —
refuting "query generation never raises" for those two failure cases. -/
theorem claim_C4_counterexample :
    sports_generate_queries (fun _ => none) LLMCall.failure = .error ()
    ∧ finance_generate_queries (fun _ => none)
        (.success "[not json]") = .error () :=
  ⟨rfl, rfl⟩

/-- C4 (amended): tech's `generate_queries` never raises and returns exactly
the deterministic fallback `[TECH ++ " news"]` on a failed call, a response
with no bracketed array, an unparseable array, and an empty parsed array;
sports' `generate_queries` returns its fallback `[TEAM ++ " " ++ SPORT ++
" news"]` in the three response-shaped failure cases but *raises* when the
call itself fails; finance's inline query generation falls back to
`[STOCK ++ " stock news"]` only when no bracketed array is found, raises
when the call fails or the array is unparseable, and returns an empty
parsed array as-is. -/
theorem claim_C4_query_fallback (j : String → Option (List String))
    (c : String) :
    tech_generate_queries j LLMCall.failure = .ok [TECH ++ " news"]
    ∧ (re_array_search c = none →
        tech_generate_queries j (.success c) = .ok [TECH ++ " news"]
        ∧ sports_generate_queries j (.success c)
            = .ok [TEAM ++ " " ++ SPORT ++ " news"]
        ∧ finance_generate_queries j (.success c)
            = .ok [STOCK ++ " stock news"])
    ∧ (∀ block, re_array_search c = some block → j block = none →
        tech_generate_queries j (.success c) = .ok [TECH ++ " news"]
        ∧ sports_generate_queries j (.success c)
            = .ok [TEAM ++ " " ++ SPORT ++ " news"]
        ∧ finance_generate_queries j (.success c) = .error ())
    ∧ (∀ block, re_array_search c = some block → j block = some [] →
        tech_generate_queries j (.success c) = .ok [TECH ++ " news"]
        ∧ sports_generate_queries j (.success c)
            = .ok [TEAM ++ " " ++ SPORT ++ " news"]
        ∧ finance_generate_queries j (.success c) = .ok [])
    ∧ sports_generate_queries j LLMCall.failure = .error ()
    ∧ finance_generate_queries j LLMCall.failure = .error () := by
  refine ⟨rfl, ?_, ?_, ?_, rfl, rfl⟩
  · intro hnone
    exact ⟨by simp [tech_generate_queries, hnone],
      by simp [sports_generate_queries, hnone],
      by simp [finance_generate_queries, hnone]⟩
  · intro block hsome hj
    exact ⟨by simp [tech_generate_queries, hsome, hj],
      by simp [sports_generate_queries, hsome, hj],
      by simp [finance_generate_queries, hsome, hj]⟩
  · intro block hsome hj
    exact ⟨by simp [tech_generate_queries, hsome, hj],
      by simp [sports_generate_queries, hsome, hj],
      by simp [finance_generate_queries, hsome, hj]⟩

/-- C4 witness: the amended theorem applied to a response with no bracketed
array and to an unparseable bracketed block. -/
theorem claim_C4_witness :
    tech_generate_queries (fun _ => none) (.success "no array here")
      = .ok [TECH ++ " news"]
    ∧ sports_generate_queries (fun _ => none) (.success "no array here")
      = .ok [TEAM ++ " " ++ SPORT ++ " news"]
    ∧ finance_generate_queries (fun _ => none)
        (.success "no array here") = .ok [STOCK ++ " stock news"]
    ∧ tech_generate_queries (fun _ => none) (.success "see [oops] there")
      = .ok [TECH ++ " news"] :=
  ⟨((claim_C4_query_fallback (fun _ => none) "no array here").2.1 rfl).1,
   ((claim_C4_query_fallback (fun _ => none) "no array here").2.1 rfl).2.1,
   ((claim_C4_query_fallback (fun _ => none) "no array here").2.1 rfl).2.2,
   ((claim_C4_query_fallback (fun _ => none) "see [oops] there").2.2.1
      "[oops]" rfl rfl).1⟩

/-- C5, counterexample: sports' `classify_article` has no `try`/`except`,
so a failing language-model call propagates instead of returning the
fail-closed negative the claim requires. -/
theorem claim_C5_counterexample :
    sports_classify_article LLMCall.failure = .error () := rfl

/-- C5 (amended): for a response that arrives, both classifiers return
positive exactly when the trimmed, (ASCII) case-normalized text begins with
"YES", and every other response is negative; on a failing call tech's
classifier returns the fail-closed negative, but sports' classifier
propagates the exception. -/
theorem claim_C5_classify (c : String) :
    sports_classify_article (.success c) = .ok (classify_response_positive c)
    ∧ tech_classify_article (.success c) = .ok (classify_response_positive c)
    ∧ tech_classify_article LLMCall.failure = .ok false
    ∧ sports_classify_article LLMCall.failure = .error ()
    ∧ classify_response_positive "  yes, relevant" = true
    ∧ classify_response_positive "Yes." = true
    ∧ classify_response_positive "NO" = false
    ∧ classify_response_positive "" = false
    ∧ classify_response_positive "maybe YES" = false :=
  ⟨rfl, rfl, rfl, rfl, rfl, rfl, rfl, rfl, rfl⟩

/-- C6, counterexample: an unparseable-date record does *not* sort after
every parseable-date record; `dateutil.parser.parse("0001-01-01T00:00:00")`
is exactly `datetime.min`, the same key `parse_date_safe` substitutes on
failure, so the two tie and the stable sort keeps the unparseable record
(which came first in the input) *before* the parseable-date record. -/
theorem claim_C6_counterexample :
    rank_articles
        (fun s => if s = "0001-01-01T00:00:00" then some datetimeMin else none)
        [{ title := "noDate" },
         { title := "minDate", published := some "0001-01-01T00:00:00" }]
      = [{ title := "noDate" },
         { title := "minDate", published := some "0001-01-01T00:00:00" }]
    ∧ (fun s => if s = "0001-01-01T00:00:00" then some datetimeMin else none)
        "0001-01-01T00:00:00" = some datetimeMin
    ∧ ({ title := "noDate" } : Article).published = none :=
  ⟨rfl, rfl, rfl⟩

/-- C6 (amended): ranking outputs the same multiset, sorted non-increasing
by parsed timestamp; a record whose `published` fails to parse (or is
absent) gets the minimum representable timestamp and therefore never
precedes a record with a strictly greater timestamp — it sorts after every
parseable-date record except one parsing to exactly the minimum, which ties
and is ordered by the stable sort's input-order rule; records with equal
(or equally unparseable) keys keep their relative input order. -/
theorem claim_C6_ranking (parse : String → Option Int) (l : List Article)
    (hmin : ∀ s t, parse s = some t → datetimeMin ≤ t) :
    (rank_articles parse l).Perm l
    ∧ (rank_articles parse l).Pairwise
        (fun x y => parse_date_safe parse y.published
          ≤ parse_date_safe parse x.published)
    ∧ (∀ k, (rank_articles parse l).filter
          (fun x => parse_date_safe parse x.published == k)
        = l.filter (fun x => parse_date_safe parse x.published == k))
    ∧ (∀ l1 a l2, rank_articles parse l = l1 ++ a :: l2 →
        parse_date_safe parse a.published = datetimeMin →
        ∀ b ∈ l2, parse_date_safe parse b.published = datetimeMin) := by
  refine ⟨sortDesc_perm _ l, sortDesc_pairwise _ l,
    fun k => sortDesc_filter_key _ k l, ?_⟩
  intro l1 a l2 hsplit hamin b hb
  have hpair := sortDesc_pairwise
    (fun x => parse_date_safe parse x.published) l
  rw [rank_articles] at hsplit
  rw [hsplit] at hpair
  have hsub : (a :: l2).Sublist (l1 ++ a :: l2) := List.sublist_append_right _ _
  have hpair2 := hpair.sublist hsub
  have hle := (List.pairwise_cons.1 hpair2).1 b hb
  rw [hamin] at hle
  have hge : datetimeMin ≤ parse_date_safe parse b.published := by
    cases hpub : b.published with
    | none => simp [parse_date_safe]
    | some s =>
      simp only [parse_date_safe]
      cases hp : parse s with
      | none => simp
      | some t => simpa using hmin s t hp
  exact le_antisymm hle hge

/-- C6 witness: the amended theorem applied to a concrete list with one
parseable and one unparseable record. -/
theorem claim_C6_witness :
    (rank_articles (fun s => if s = "2024-01-02" then some 5 else none)
        [{ title := "old" }, { title := "new", published := some "2024-01-02" }]).Perm
      [({ title := "old" } : Article),
       { title := "new", published := some "2024-01-02" }] :=
  (claim_C6_ranking (fun s => if s = "2024-01-02" then some 5 else none)
      [{ title := "old" }, { title := "new", published := some "2024-01-02" }]
      (by
        intro s t h
        by_cases hs : s = "2024-01-02"
        · simp [hs] at h
          simp only [datetimeMin]
          omega
        · simp [hs] at h)).1

/-- C7: the search-API fetch concatenates per-query results and truncates
only the concatenation to the single global cap `MAX_NEWSAPI`, while the
RSS fetch truncates each feed's entries to the per-feed cap `MAX_RSS`
*before* concatenating across feeds; consequently the search-API stage
returns at most `MAX_NEWSAPI` records in total, whereas the RSS stage's
total is the sum of the per-feed minima. -/
theorem claim_C7_caps (raw : String → List RawArticle)
    (entries : String → List RawArticle) (queries feeds : List String) :
    fetch_newsapi_articles raw queries
      = ((queries.map (fun q => (raw q).map
            (fun a => normalize_article a "newsapi"))).flatten).take MAX_NEWSAPI
    ∧ fetch_rss_articles entries feeds
      = (feeds.map (fun f => ((entries f).take MAX_RSS).map
            (fun e => normalize_article (rssEntryToRaw e) "rss"))).flatten
    ∧ (fetch_newsapi_articles raw queries).length
        = min MAX_NEWSAPI ((queries.map (fun q => (raw q).length)).sum)
    ∧ (fetch_rss_articles entries feeds).length
        = (feeds.map (fun f => min MAX_RSS (entries f).length)).sum := by
  refine ⟨by rw [fetch_newsapi_articles, newsapiLoop_eq],
    fetch_rss_articles_eq entries feeds, ?_, ?_⟩
  · rw [fetch_newsapi_articles, newsapiLoop_eq, List.length_take,
      List.length_flatten, List.map_map]
    simp only [Function.comp_def, List.length_map]
  · rw [fetch_rss_articles_eq, List.length_flatten, List.map_map]
    simp only [Function.comp_def, List.length_map, List.length_take]


/-- C8: when the truncated final selection is empty, `run_finance_agent`
returns the empty dict `{}` (modelled `none`) and `run_sports_agent` does
the same, and in both runs the summarizer-invoked flag is `false`: the
summarizer only appears in the populated branch. -/
theorem claim_C8_empty_terminal (envF : FinanceEnv) (envS : SportsEnv)
    (qsF qsS : List String) (relevant : List Article)
    (hqF : finance_generate_queries envF.jsonLoads envF.queryCall = .ok qsF)
    (hselF : financeSelect envF qsF = [])
    (hqS : sports_generate_queries envS.jsonLoads envS.queryCall = .ok qsS)
    (hcol : collectRelevantE (sportsRanked envS qsS) envS.classify
        envS.completion = .ok relevant)
    (htake : relevant.take FINAL_ARTICLES = []) :
    run_finance_agent envF = .ok (none, false)
    ∧ run_sports_agent envS = .ok (none, false) := by
  constructor
  · rw [run_finance_agent]
    split
    · rename_i e heq
      rw [hqF] at heq
      exact absurd heq (by simp)
    · rename_i queries heq
      rw [hqF] at heq
      cases Except.ok.inj heq
      rw [if_pos hselF]
  · rw [run_sports_agent]
    split
    · rename_i e heq
      rw [hqS] at heq
      exact absurd heq (by simp)
    · rename_i queries heq
      rw [hqS] at heq
      cases Except.ok.inj heq
      split
      · rename_i e heq2
        rw [hcol] at heq2
        exact absurd heq2 (by simp)
      · rename_i rel heq2
        rw [hcol] at heq2
        cases Except.ok.inj heq2
        rw [if_pos htake]

/-- C8 witness: the theorem applied to concrete environments in which both
fetches return nothing. -/
theorem claim_C8_witness :
    run_finance_agent
        { queryCall := .success "no brackets", jsonLoads := fun _ => none,
          newsapiRaw := fun _ => [], rssRaw := [], dateParse := fun _ => none,
          stockInfo := "unavailable", summarizer := fun _ => "s" }
      = .ok (none, false)
    ∧ run_sports_agent
        { queryCall := .success "no brackets", jsonLoads := fun _ => none,
          newsapiRaw := fun _ => [], feedEntries := fun _ => [],
          dateParse := fun _ => none, classify := fun _ => .ok true,
          completion := [], summarizer := fun _ => "s" }
      = .ok (none, false) :=
  claim_C8_empty_terminal
    { queryCall := .success "no brackets", jsonLoads := fun _ => none,
      newsapiRaw := fun _ => [], rssRaw := [], dateParse := fun _ => none,
      stockInfo := "unavailable", summarizer := fun _ => "s" }
    { queryCall := .success "no brackets", jsonLoads := fun _ => none,
      newsapiRaw := fun _ => [], feedEntries := fun _ => [],
      dateParse := fun _ => none, classify := fun _ => .ok true,
      completion := [], summarizer := fun _ => "s" }
    [STOCK ++ " stock news"] [TEAM ++ " " ++ SPORT ++ " news"] []
    rfl rfl rfl rfl rfl

/-- C9: `extract_json_block` and `safe_json_loads` are total functions of
the input text (every failure path yields `None` rather than an exception —
the only exception `json.loads` can raise on a string, `JSONDecodeError`,
is caught); a non-`None` extracted block is never the empty string, and
`safe_json_loads` returns a parsed value exactly when a block was extracted
and `json.loads` parses it. -/
theorem claim_C9_json_total {α : Type} (j : String → Option α)
    (text : String) (v : α) :
    (∀ block, extract_json_block text = some block → block ≠ "")
    ∧ (safe_json_loads j text = some v
        ↔ ∃ block, extract_json_block text = some block ∧ j block = some v) :=
  ⟨fun _ hb => extract_json_block_ne_empty hb, safe_json_loads_spec j text v⟩

/-- C9 witness: the theorem applied to a concrete noisy text and a concrete
parse function. -/
theorem claim_C9_witness :
    ("[1, 2]" : String) ≠ ""
    ∧ safe_json_loads
        (fun s => if s = "[1, 2]" then some (42 : Nat) else none)
        "noise [1, 2] tail" = some 42 :=
  ⟨(claim_C9_json_total
      (fun s => if s = "[1, 2]" then some (42 : Nat) else none)
      "noise [1, 2] tail" 42).1 "[1, 2]" rfl,
   (claim_C9_json_total
      (fun s => if s = "[1, 2]" then some (42 : Nat) else none)
      "noise [1, 2] tail" 42).2.mpr ⟨"[1, 2]", rfl, rfl⟩⟩

/-- C10: every record surviving the merge/deduplication stage — in
`deduplicate_articles`, tech's `deduplicate`, and the finance/sports merge
dict — has a url that is a non-empty string (both `None` and `""` are
dropped by the truthiness guards), and therefore every record in the ranked
list and in the truncated final selection does too. -/
theorem claim_C10_falsy_url :
    (∀ l : List Article, ∀ a ∈ deduplicate_articles l,
      ∃ u, a.url = some u ∧ u ≠ "")
    ∧ (∀ l : List Article, ∀ a ∈ tech_deduplicate l,
        ∃ u, a.url = some u ∧ u ≠ "")
    ∧ (∀ l : List Article, ∀ a ∈ dictValues (combineDict l),
        ∃ u, a.url = some u ∧ u ≠ "")
    ∧ (∀ (parse : String → Option Int) (l : List Article),
        ∀ a ∈ rank_articles parse (dictValues (combineDict l)),
          ∃ u, a.url = some u ∧ u ≠ "")
    ∧ (∀ (parse : String → Option Int) (l : List Article) (n : Nat),
        ∀ a ∈ (rank_articles parse (dictValues (combineDict l))).take n,
          ∃ u, a.url = some u ∧ u ≠ "") := by
  have hdict : ∀ l : List Article, ∀ a ∈ dictValues (combineDict l),
      ∃ u, a.url = some u ∧ u ≠ "" := by
    intro l a ha
    obtain ⟨p, hp, hpa⟩ := List.mem_map.1 ha
    obtain ⟨hurl, hne⟩ := mem_combineDict hp
    exact ⟨p.1, hpa ▸ hurl, hne⟩
  have hrank : ∀ (parse : String → Option Int) (l : List Article),
      ∀ a ∈ rank_articles parse (dictValues (combineDict l)),
        ∃ u, a.url = some u ∧ u ≠ "" := by
    intro parse l a ha
    exact hdict l a (((sortDesc_perm _ _).mem_iff).1 ha)
  refine ⟨?_, ?_, hdict, hrank, ?_⟩
  · intro l a ha
    exact (mem_dedupGo ha).elim (fun v hv => ⟨v, hv.1, hv.2.1⟩)
  · intro l a ha
    exact (mem_dedupGo ha).elim (fun v hv => ⟨v, hv.1, hv.2.1⟩)
  · intro parse l n a ha
    exact hrank parse l a (List.take_subset n _ ha)

/-- C10 witness: the theorem applied to a concrete record with a non-empty
url surviving the merge dict. -/
theorem claim_C10_witness :
    ∃ u, ({ title := "kept", url := some "u9" } : Article).url = some u
      ∧ u ≠ "" :=
  claim_C10_falsy_url.2.2.1 [{ title := "kept", url := some "u9" }]
    { title := "kept", url := some "u9" } (by decide)
